import Mathlib

/-!
Verification of the synchronization core of the `flashmap` crate: a
single-writer / many-reader double-buffered hash map.

The development shallowly embeds the relevant source functions:

* `src/core/refcount.rs`: the packed per-reader atomic word (`RefCount`),
  with its `increment` / `decrement` / `swap_maps` operations modelled as
  pure functions on `Nat` values below `2 ^ 64` (the machine word),
  overflow expressed with explicit `% 2 ^ 64`.
* `src/core/mod.rs`: the `Core` residual counter protocol
  (`release_residual`, the publish loop of `Core::publish`, the writer
  `fetch_add(isize::MIN)` step of `synchronize`), with `isize` arithmetic
  modelled by `Int` together with an explicit twos-complement wrap.
* `src/write.rs`: the write-guard operation log and buffer mutations
  (`insert`, `replace`, `remove`, `drop_lazily`), the log replay
  `flush_operations`, the `Leaked` / uid machinery and `WriterUid::next`.

Buffers are modelled as functions `K → Option (P × V)`: the key type `K`
carries the `Eq`/`Hash`-relevant content used for lookup, while `P` is the
payload of the concrete key object that is stored in the table (so that
claims about *which* key object remains stored are expressible).
-/

namespace Flashmap

/-- Models `usize::BITS` on the 64-bit target. -/
def USIZE_BITS : Nat := 64

/-- The modulus of a machine word, `2 ^ usize::BITS`. -/
def WORD : Nat := 2 ^ USIZE_BITS

/-- Models `isize::MIN` as an integer. -/
def ISIZE_MIN : Int := -(2 ^ 63)

/-- Models `isize::MAX` as an integer. -/
def ISIZE_MAX : Int := 2 ^ 63 - 1

/-- Twos-complement wrap of an integer into the `isize` range
`[-2^63, 2^63)`; models the wrapping `isize` arithmetic of the source. -/
def wrapIsize (x : Int) : Int := (x + 2 ^ 63) % 2 ^ 64 - 2 ^ 63

/-- Models `MapIndex` from `src/core/store.rs`: which of the two buffers. -/
inductive MapIndex : Type
  | First
  | Second
deriving DecidableEq, Repr

/-- The `repr(usize)` discriminant of a `MapIndex`. -/
def MapIndex.toNat : MapIndex → Nat
  | .First => 0
  | .Second => 1

/-- Models `MapIndex::from_usize_unchecked`; only ever applied to `0` or `1`. -/
def MapIndex.fromUsize (n : Nat) : MapIndex :=
  if n = 0 then .First else .Second

/-- Models `MapIndex::other` from `src/core/store.rs`. -/
def MapIndex.other : MapIndex → MapIndex
  | .First => .Second
  | .Second => .First

namespace RefCount

/-- Models `RefCount::MAP_INDEX_FLAG = 1 << (usize::BITS - 1)`. -/
def MAP_INDEX_FLAG : Nat := 1 <<< (USIZE_BITS - 1)

/-- Models `RefCount::COUNT_MASK = (1 << (usize::BITS - 2)) - 1`. -/
def COUNT_MASK : Nat := (1 <<< (USIZE_BITS - 2)) - 1

/-- Models `RefCount::new(read_index)`: the packed word starts as
`(read_index as usize) << (usize::BITS - 1)` (count field zero). -/
def new (read_index : MapIndex) : Nat :=
  read_index.toNat <<< (USIZE_BITS - 1)

/-- Models `RefCount::to_map_index`: the side bit of a packed word. -/
def to_map_index (value : Nat) : MapIndex :=
  MapIndex.fromUsize (value >>> (USIZE_BITS - 1))

/-- Models `RefCount::increment`: fetch-add of `1`; aborts (modelled as `none`)
when the fetched value has the overflow-sentinel bit
`COUNT_MASK + 1 = 2 ^ (usize::BITS - 2)` set; otherwise returns the side
bit observed before the add together with the new packed word. -/
def increment (value : Nat) : Option (MapIndex × Nat) :=
  let old_value := value
  if old_value &&& (COUNT_MASK + 1) > 0 then
    none
  else
    some (to_map_index old_value, (value + 1) % WORD)

/-- Models `RefCount::decrement`: fetch-sub of `1` (wrapping); returns the side
bit observed before the sub together with the new packed word. -/
def decrement (value : Nat) : MapIndex × Nat :=
  let old_value := value
  (to_map_index old_value, (value + (WORD - 1)) % WORD)

/-- Models `RefCount::swap_maps`: fetch-add of `MAP_INDEX_FLAG` (wrapping, which
toggles the side bit); returns the count field (`old & COUNT_MASK`) of the
value observed before the add, together with the new packed word. -/
def swap_maps (value : Nat) : Nat × Nat :=
  let old_value := value
  (old_value &&& COUNT_MASK, (value + MAP_INDEX_FLAG) % WORD)

/-- Iterated `increment`; models one reader acquiring `n` guards in a row.
`none` means the process aborted during one of the increments. -/
def iterIncrement : Nat → Nat → Option Nat
  | 0, value => some value
  | n + 1, value =>
    match increment value with
    | none => none
    | some (_, value') => iterIncrement n value'

end RefCount

/-- The state of `Core` relevant to the residual/publish protocol:
the signed residual counter, the slab of packed refcount words (one per
registered reader), and the index of the buffer the writer mutates. -/
structure CoreState where
  residual : Int
  refcounts : List Nat
  writer_map : MapIndex

namespace Core

/-- Models `Core::build_map` initializes `writer_map` to `MapIndex::Second`. -/
def initialWriterMap : MapIndex := .Second

/-- Models `Core::build_map` initializes `residual` to `0` and the refcount slab
empty (the first reader handle is registered by `new_reader` afterwards). -/
def initialState : CoreState :=
  { residual := 0, refcounts := [], writer_map := initialWriterMap }

/-- Models `Core::new_reader`: under the refcounts lock, allocate a fresh
`RefCount::new(writer_map.other())` cell and insert it into the slab. -/
def new_reader (s : CoreState) : CoreState :=
  { s with refcounts := s.refcounts ++ [RefCount.new s.writer_map.other] }

/-- Models `Core::release_residual`: `fetch_sub(1, AcqRel)` on the residual; if
the pre-decrement value is not `isize::MIN + 1` nothing further happens;
otherwise the residual is stored to `0` and the parked writer is woken.
Returns the new residual and whether a wake-up was issued. -/
def release_residual (residual : Int) : Int × Bool :=
  let last_residual := residual
  if last_residual ≠ ISIZE_MIN + 1 then
    (wrapIsize (residual - 1), false)
  else
    (0, true)

/-- Models `n` successive calls of `release_residual` by distinct reader-guard
drops; returns the final residual and the number of wake-ups issued. -/
def releaseLoop : Nat → Int → Int × Nat
  | 0, residual => (residual, 0)
  | n + 1, residual =>
    let (residual', woke) := release_residual residual
    let (residual'', wakes) := releaseLoop n residual'
    (residual'', (if woke then 1 else 0) + wakes)

/-- The writer `residual.fetch_add(isize::MIN, AcqRel)` step inside
`Core::synchronize`, which claims the park by setting the sign bit. -/
def parkResidual (residual : Int) : Int :=
  wrapIsize (residual + ISIZE_MIN)

/-- The loop body of `Core::publish` over the refcount slab: each cell is
`swap_maps`-ed, the pre-toggle count fields are accumulated into
`initial_residual` with wrapping `isize` addition, and the process aborts
(modelled as `none`) as soon as the signed sum goes negative. Returns the
toggled slab and the final `initial_residual`. -/
def publishLoop : List Nat → Int → Option (List Nat × Int)
  | [], acc => some ([], acc)
  | refcount :: rest, acc =>
    let (count, refcount') := RefCount.swap_maps refcount
    let acc' := wrapIsize (acc + (count : Int))
    if acc' < 0 then
      none
    else
      match publishLoop rest acc' with
      | none => none
      | some (rest', total) => some (refcount' :: rest', total)

/-- Models `Core::publish`: flip `writer_map` (under the refcounts lock), run the
swap/sum loop over every refcount, then `fetch_add` the accumulated
`initial_residual` into the residual counter. `none` models the abort on
signed-sum overflow. -/
def publish (s : CoreState) : Option CoreState :=
  match publishLoop s.refcounts 0 with
  | none => none
  | some (refcounts', initial_residual) =>
    some { residual := wrapIsize (s.residual + initial_residual),
           refcounts := refcounts',
           writer_map := s.writer_map.other }

/-- The running wrapped signed sum of the count fields of a list of
refcount words, as accumulated by the loop of `Core::publish`. -/
def wrapSumCounts (l : List Nat) (acc : Int) : Int :=
  l.foldl
    (fun a refcount =>
      wrapIsize (a + ((refcount &&& RefCount.COUNT_MASK : Nat) : Int)))
    acc

end Core

/-! ## The write side: operation log, buffer mutations, log replay

A buffer (`hashbrown::HashMap<Alias<K>, Alias<V>>`) is modelled as a
function `K → Option (P × V)`: lookup is by the `Eq`-relevant content `K`,
while `P` is the payload of the concrete key *object* stored in the table
(aliased cells around `K`/`V` are transparent in this functional model;
their deferred destruction is tracked by the drop lists of the replay). -/

/-- A buffer: the key-value contents of one of the two hash tables,
keyed by lookup content `K`, storing the key-object payload `P` and the
value `V`. -/
def Buf (K P V : Type) : Type := K → Option (P × V)

/-- Pointwise update of a buffer slot. -/
def Buf.update {K P V : Type} [DecidableEq K] (m : Buf K P V) (k : K)
    (slot : Option (P × V)) : Buf K P V :=
  fun k' => if k' = k then slot else m k'

/-- Models `RawOperation` from `src/write.rs`. The key objects moved into the
log are recorded together with their payloads. -/
inductive RawOperation (K P V : Type) : Type
  | InsertUnique (key : K × P) (value : V)
  | Replace (key : K × P) (value : V)
  | Remove (key : K × P)
  | Drop (value : V)

/-- Models `Operation` from `src/write.rs`: a raw operation plus the `leaky`
flag set by `Evicted::leak`. -/
structure Operation (K P V : Type) : Type where
  raw : RawOperation K P V
  leaky : Bool

/-- Models `Operation::new`: the `leaky` flag starts out `false`. -/
def Operation.new {K P V : Type} (raw : RawOperation K P V) :
    Operation K P V :=
  { raw := raw, leaky := false }

/-- The writer-visible state during a write guard: the writer-side buffer
and the operation log of the handle. -/
structure WriteState (K P V : Type) where
  buf : Buf K P V
  operations : List (Operation K P V)

/-- Models `WriteGuard::insert`: if the key is absent, store the (aliased copies
of the) key and value in the buffer, append `InsertUnique` to the log and
return `none`; if present, replace only the value slot (the stored key
object, here its payload `p₀`, is untouched), append `Replace` with the
caller-supplied key, and return the previous value as evicted. -/
def WriteGuard.insert {K P V : Type} [DecidableEq K] (s : WriteState K P V)
    (k : K) (p : P) (v : V) : WriteState K P V × Option V :=
  match s.buf k with
  | none =>
    ({ buf := s.buf.update k (some (p, v)),
       operations :=
         s.operations ++ [Operation.new (.InsertUnique (k, p) v)] },
     none)
  | some (p₀, v₀) =>
    ({ buf := s.buf.update k (some (p₀, v)),
       operations := s.operations ++ [Operation.new (.Replace (k, p) v)] },
     some v₀)

/-- Models `WriteGuard::replace`: if the key is present with value `v₀`, compute
`op v₀`, append `Replace` with the caller-supplied key and the new value, store
the new value in the slot (stored key object untouched) and return the old
value as evicted; otherwise return `none` with nothing changed. -/
def WriteGuard.replace {K P V : Type} [DecidableEq K] (s : WriteState K P V)
    (k : K) (p : P) (op : V → V) : WriteState K P V × Option V :=
  match s.buf k with
  | some (p₀, v₀) =>
    ({ buf := s.buf.update k (some (p₀, op v₀)),
       operations :=
         s.operations ++ [Operation.new (.Replace (k, p) (op v₀))] },
     some v₀)
  | none => (s, none)

/-- Models `WriteGuard::remove`: if the key is present, remove the entry, append
`Remove` with the caller-supplied key and return the removed value as evicted;
otherwise return `none` and append nothing. -/
def WriteGuard.remove {K P V : Type} [DecidableEq K] (s : WriteState K P V)
    (k : K) (p : P) : WriteState K P V × Option V :=
  match s.buf k with
  | some (_, v₀) =>
    ({ buf := s.buf.update k none,
       operations := s.operations ++ [Operation.new (.Remove (k, p))] },
     some v₀)
  | none => (s, none)

/-- One write-guard mutation, as issued by user code against the guard. -/
inductive Mutation (K P V : Type) : Type
  | insert (k : K) (p : P) (v : V)
  | replace (k : K) (p : P) (op : V → V)
  | remove (k : K) (p : P)
  | dropLazily (v : V)

/-- Apply one mutation to the guard state (discarding the evicted
return). `dropLazily` only appends a `Drop` entry to the log. -/
def applyMutation {K P V : Type} [DecidableEq K] (s : WriteState K P V) :
    Mutation K P V → WriteState K P V
  | .insert k p v => (WriteGuard.insert s k p v).1
  | .replace k p op => (WriteGuard.replace s k p op).1
  | .remove k p => (WriteGuard.remove s k p).1
  | .dropLazily v =>
    { s with operations := s.operations ++ [Operation.new (.Drop v)] }

/-- Apply a sequence of write-guard mutations in order. -/
def applyMutations {K P V : Type} [DecidableEq K] (s : WriteState K P V)
    (muts : List (Mutation K P V)) : WriteState K P V :=
  muts.foldl applyMutation s

/-- Replay of a single log entry by `WriteHandle::flush_operations` onto a
buffer. `none` models the `unwrap_unchecked` on a key that the replayed
log guarantees present. Returns the updated buffer together with the key
objects and values dropped (`Alias::drop`) by this entry. -/
def flushOp {K P V : Type} [DecidableEq K] (op : Operation K P V)
    (m : Buf K P V) : Option (Buf K P V × List (K × P) × List V) :=
  match op.raw with
  | .InsertUnique (k, p) v => some (m.update k (some (p, v)), [], [])
  | .Replace (k, _) v =>
    match m k with
    | none => none
    | some (p₀, v₀) =>
      some (m.update k (some (p₀, v)), [], if op.leaky then [] else [v₀])
  | .Remove (k, _) =>
    match m k with
    | none => none
    | some (p₀, v₀) =>
      some (m.update k none, [(k, p₀)], if op.leaky then [] else [v₀])
  | .Drop v => some (m, [], [v])

/-- Models `WriteHandle::flush_operations`: drain the log in order, replaying
each entry onto the target buffer. Returns the list of operations left in
the log after the drain (always empty on success), the updated buffer, and
the key objects and values dropped during the replay. -/
def flush_operations {K P V : Type} [DecidableEq K] :
    List (Operation K P V) → Buf K P V →
    Option (List (Operation K P V) × Buf K P V × List (K × P) × List V)
  | [], m => some ([], m, [], [])
  | op :: rest, m =>
    match flushOp op m with
    | none => none
    | some (m', dk, dv) =>
      match flush_operations rest m' with
      | none => none
      | some (left, m'', dks, dvs) => some (left, m'', dk ++ dks, dv ++ dvs)

/-! ## Writer uids, `Leaked`, reclamation -/

/-- The constant panic message `LEAKED_VALUE_MISMATCH` from
`src/write.rs`. -/
def LEAKED_VALUE_MISMATCH : String := "Leaked value is not from this map"

/-- The initial value of the `NEXT_WRITER_UID` atomic counter. -/
def NEXT_WRITER_UID_INIT : Nat := 1

/-- Models `WriterUid::next`: relaxed `fetch_add(1)` (wrapping) on the
process-wide counter; `NonZeroUsize::new(..).expect(..)` panics (modelled
as `Except.error` with the panic message) when the fetched value has
wrapped to zero. Returns the uid and the new counter value. -/
def WriterUid.next (counter : Nat) : Except String (Nat × Nat) :=
  let fetched := counter
  let counter' := (counter + 1) % WORD
  if fetched = 0 then
    .error "Maximum number of maps exceeded for this architecture"
  else
    .ok (fetched, counter')

/-- Models `n` successive `WriterUid::next` calls (one per constructed write
handle); returns the uids drawn, in order, and the final counter. -/
def WriterUid.draw : Nat → Nat → Except String (List Nat × Nat)
  | 0, counter => .ok ([], counter)
  | n + 1, counter =>
    match WriterUid.next counter with
    | .error e => .error e
    | .ok (uid, counter') =>
      match WriterUid.draw n counter' with
      | .error e => .error e
      | .ok (uids, final) => .ok (uid :: uids, final)

/-- Models `Leaked<V>` from `src/write.rs`: the (aliased) value together with
the uid of the write handle it came from. -/
structure Leaked (V : Type) : Type where
  value : V
  handle_uid : Nat

/-- The closure returned by `WriteHandle::reclaimer_unchecked` (also the
body of `reclaim_one`): assert the uids match — panicking with the
constant mismatch message otherwise, before the aliased cell is consumed —
then take ownership of the value. -/
def reclaim_one {V : Type} (uid : Nat) (leaked : Leaked V) :
    Except String V :=
  if uid = leaked.handle_uid then
    .ok leaked.value
  else
    .error LEAKED_VALUE_MISMATCH

/-- Models `WriteGuard::drop_lazily`: assert the uids match — panicking with the
constant mismatch message otherwise, before anything is recorded — then
append a `Drop` entry holding the leaked value to the operation log. -/
def drop_lazily {K P V : Type} (handle_uid : Nat) (leaked : Leaked V)
    (operations : List (Operation K P V)) :
    Except String (List (Operation K P V)) :=
  if handle_uid = leaked.handle_uid then
    .ok (operations ++ [Operation.new (.Drop leaked.value)])
  else
    .error LEAKED_VALUE_MISMATCH


/-! ## Arithmetic helper lemmas -/

theorem land_count_mask (x : Nat) : x &&& RefCount.COUNT_MASK = x % 2 ^ 62 := by
  have h : RefCount.COUNT_MASK = 2 ^ 62 - 1 := by decide
  rw [h, Nat.and_pow_two_sub_one_eq_mod]

theorem sentinel_eq_zero_iff (x : Nat) :
    x &&& (RefCount.COUNT_MASK + 1) = 0 ↔ x / 2 ^ 62 % 2 = 0 := by
  have h : RefCount.COUNT_MASK + 1 = 2 ^ 62 := by decide
  rw [h, Nat.and_two_pow, Nat.testBit_to_div_mod]
  rcases hb : decide (x / 2 ^ 62 % 2 = 1) with _ | _
  · simp at hb ⊢; omega
  · simp at hb ⊢; omega

theorem wrapIsize_eq_self {x : Int} (h1 : -(2 ^ 63) ≤ x) (h2 : x < 2 ^ 63) :
    wrapIsize x = x := by
  unfold wrapIsize
  have h3 : (0:Int) ≤ x + 2 ^ 63 := by omega
  have h4 : x + 2 ^ 63 < 2 ^ 64 := by omega
  rw [Int.emod_eq_of_lt h3 h4]; omega

theorem to_map_index_eq (v : Nat) :
    RefCount.to_map_index v = MapIndex.fromUsize (v / 2 ^ 63) := by
  unfold RefCount.to_map_index
  rw [Nat.shiftRight_eq_div_pow]
  norm_num [USIZE_BITS]

theorem swap_maps_spec {rc : Nat} (h : rc < WORD) :
    (RefCount.swap_maps rc).1 = rc &&& RefCount.COUNT_MASK
    ∧ RefCount.to_map_index (RefCount.swap_maps rc).2
        = (RefCount.to_map_index rc).other
    ∧ (RefCount.swap_maps rc).2 &&& RefCount.COUNT_MASK
        = rc &&& RefCount.COUNT_MASK
    ∧ (RefCount.swap_maps rc).2 < WORD := by
  have hW : WORD = 2 ^ 64 := by decide
  have hflag : RefCount.MAP_INDEX_FLAG = 2 ^ 63 := by decide
  unfold RefCount.swap_maps
  simp only [hW, hflag, land_count_mask, to_map_index_eq]
  rw [hW] at h
  refine ⟨trivial, ?_, ?_, ?_⟩
  · rcases Nat.lt_or_ge rc (2 ^ 63) with hlt | hge
    · have e : (rc + 2 ^ 63) % 2 ^ 64 = rc + 2 ^ 63 := by omega
      rw [e]
      have e1 : (rc + 2 ^ 63) / 2 ^ 63 = 1 := by omega
      have e2 : rc / 2 ^ 63 = 0 := by omega
      rw [e1, e2]; rfl
    · have e : (rc + 2 ^ 63) % 2 ^ 64 = rc - 2 ^ 63 := by omega
      rw [e]
      have e1 : (rc - 2 ^ 63) / 2 ^ 63 = 0 := by omega
      have e2 : rc / 2 ^ 63 = 1 := by omega
      rw [e1, e2]; rfl
  · omega
  · omega

theorem new_eq (idx : MapIndex) : RefCount.new idx = idx.toNat * 2 ^ 63 := by
  cases idx <;> decide

theorem toNat_le_one (idx : MapIndex) : idx.toNat ≤ 1 := by
  cases idx <;> decide

theorem iterIncrement_add (a b : Nat) (v : Nat) :
    RefCount.iterIncrement (a + b) v
      = match RefCount.iterIncrement a v with
        | none => none
        | some v' => RefCount.iterIncrement b v' := by
  induction a generalizing v with
  | zero => simp [RefCount.iterIncrement, Nat.zero_add]
  | succ a ih =>
    have e : a + 1 + b = (a + b) + 1 := by omega
    rw [e]
    rw [RefCount.iterIncrement]
    conv_rhs => rw [RefCount.iterIncrement]
    rcases h : RefCount.increment v with _ | ⟨_, v'⟩
    · rfl
    · simp only [ih v']

theorem iterIncrement_ok (idx : MapIndex) :
    ∀ (k j : Nat), j + k ≤ 2 ^ 62 →
      RefCount.iterIncrement k (idx.toNat * 2 ^ 63 + j)
        = some (idx.toNat * 2 ^ 63 + (j + k)) := by
  intro k
  induction k with
  | zero => intro j _; simp [RefCount.iterIncrement]
  | succ k ih =>
    intro j hj
    have ht := toNat_le_one idx
    show (match RefCount.increment (idx.toNat * 2 ^ 63 + j) with
          | none => none
          | some (_, v') => RefCount.iterIncrement k v') = _
    have hs : (idx.toNat * 2 ^ 63 + j) &&& (RefCount.COUNT_MASK + 1) = 0 := by
      rw [sentinel_eq_zero_iff]
      omega
    have hmod : (idx.toNat * 2 ^ 63 + j + 1) % WORD
        = idx.toNat * 2 ^ 63 + (j + 1) := by
      have hW : WORD = 2 ^ 64 := by decide
      rw [hW]; omega
    rw [RefCount.increment]
    simp only [hs, gt_iff_lt, Nat.lt_irrefl, if_false]
    rw [hmod, ih (j + 1) (by omega)]
    have : j + 1 + k = j + (k + 1) := by omega
    rw [this]

/-- Claim C3, counterexample: a reader refcount whose count field is at
the saturation maximum `2 ^ (W-2) - 1` (the fetched value is exactly
`COUNT_MASK`) does not abort on `increment`: the fetch-add goes through
and overflows the count into the sentinel bit. The claim states that
`increment` aborts whenever the fetched count field is already at the
maximum; the code only aborts once the sentinel bit `2 ^ (W-2)` is set,
one increment later. -/
theorem increment_at_max_count_does_not_abort :
    RefCount.increment RefCount.COUNT_MASK
      = some (MapIndex.First, RefCount.COUNT_MASK + 1) := by decide

/-- Claim C3, amended: `increment` aborts exactly when the fetched value
has the overflow-sentinel bit `COUNT_MASK + 1 = 2 ^ (W-2)` set, i.e. when
the count has already been incremented past `2 ^ (W-2) - 1`. Starting from
a fresh refcount cell, the first `2 ^ (W-2)` increments all succeed (the
count saturates at `2 ^ (W-2)`, one past the claimed maximum), and the
increment after that always aborts. -/
theorem increment_saturation (idx : MapIndex) (k : Nat) (hk : k ≤ 2 ^ 62) :
    (∀ v, RefCount.increment v = none ↔ v &&& (RefCount.COUNT_MASK + 1) > 0)
    ∧ RefCount.iterIncrement k (RefCount.new idx)
        = some (RefCount.new idx + k)
    ∧ RefCount.iterIncrement (2 ^ 62 + 1) (RefCount.new idx) = none := by
  refine ⟨?_, ?_, ?_⟩
  · intro v
    rw [RefCount.increment]
    split <;> simp_all
  · rw [new_eq]
    have := iterIncrement_ok idx k 0 (by omega)
    simpa using this
  · rw [new_eq, iterIncrement_add]
    have h0 := iterIncrement_ok idx (2 ^ 62) 0 (by omega)
    rw [Nat.add_zero, Nat.zero_add] at h0
    rw [h0]
    have ht := toNat_le_one idx
    have hs : (idx.toNat * 2 ^ 63 + 2 ^ 62) &&& (RefCount.COUNT_MASK + 1) ≠ 0 := by
      rw [Ne, sentinel_eq_zero_iff]
      omega
    have hinc : RefCount.increment (idx.toNat * 2 ^ 63 + 2 ^ 62) = none := by
      simp only [RefCount.increment]
      rw [if_pos (Nat.pos_of_ne_zero hs)]
    show RefCount.iterIncrement 1 (idx.toNat * 2 ^ 63 + 2 ^ 62) = none
    rw [RefCount.iterIncrement, hinc]

/-- Witness for the amended claim C3 at `idx = First`, `k = 2`. -/
theorem increment_saturation_witness :
    2 ≤ 2 ^ 62
    ∧ ((∀ v, RefCount.increment v = none
          ↔ v &&& (RefCount.COUNT_MASK + 1) > 0)
       ∧ RefCount.iterIncrement 2 (RefCount.new .First)
           = some (RefCount.new .First + 2)
       ∧ RefCount.iterIncrement (2 ^ 62 + 1) (RefCount.new .First) = none) :=
  ⟨by norm_num, increment_saturation .First 2 (by norm_num)⟩

/-- Claim C5: a newly registered reader (`Core::new_reader`, used both by
handle construction and by `ReadHandle::clone`) receives a fresh refcount
cell whose count field (and sentinel bit) is zero and whose side bit is
the complement of the current writer side; at construction the writer side
is the fixed index `Second = 1`, so the first reader gets side bit `0`
(value `0`). -/
theorem new_reader_spec (s : CoreState) :
    (Core.new_reader s).refcounts
      = s.refcounts ++ [RefCount.new s.writer_map.other]
    ∧ RefCount.new s.writer_map.other &&& RefCount.COUNT_MASK = 0
    ∧ RefCount.new s.writer_map.other &&& (RefCount.COUNT_MASK + 1) = 0
    ∧ RefCount.to_map_index (RefCount.new s.writer_map.other)
        = s.writer_map.other
    ∧ Core.initialWriterMap = MapIndex.Second
    ∧ RefCount.new Core.initialWriterMap.other = 0 := by
  refine ⟨rfl, ?_, ?_, ?_, rfl, by decide⟩ <;>
    cases s.writer_map <;> decide

/-! ## Claim C2: the residual release protocol -/

theorem releaseLoop_no_wake (k : Nat) :
    ∀ r : Int, (k : Int) ≤ r → r < 2 ^ 63 →
      Core.releaseLoop k r = (r - k, 0) := by
  induction k with
  | zero => intro r _ _; simp [Core.releaseLoop]
  | succ k ih =>
    intro r hk hr
    have hcast : ((k : Int) + 1) ≤ r := by push_cast at hk ⊢; omega
    have hne : r ≠ ISIZE_MIN + 1 := by
      unfold ISIZE_MIN; omega
    rw [Core.releaseLoop]
    simp only [Core.release_residual, if_pos hne]
    have hw : wrapIsize (r - 1) = r - 1 := by
      apply wrapIsize_eq_self <;> omega
    rw [hw, ih (r - 1) (by omega) (by omega)]
    have : r - 1 - k = r - (k + 1 : Nat) := by push_cast; omega
    rw [this]
    simp

theorem releaseLoop_parked (m : Nat) :
    1 ≤ m → (m : Int) ≤ 2 ^ 63 - 1 →
      Core.releaseLoop m (ISIZE_MIN + m) = (0, 1) := by
  induction m with
  | zero => intro h _; omega
  | succ m ih =>
    intro _ hm
    by_cases hm0 : m = 0
    · subst hm0
      norm_num [Core.releaseLoop, Core.release_residual]
    · have hm1 : 1 ≤ m := Nat.one_le_iff_ne_zero.mpr hm0
      have hne : ISIZE_MIN + ((m : Int) + 1) ≠ ISIZE_MIN + 1 := by
        omega
      rw [Core.releaseLoop]
      push_cast
      simp only [Core.release_residual, if_pos hne]
      have hw : wrapIsize (ISIZE_MIN + ((m : Int) + 1) - 1) = ISIZE_MIN + m := by
        rw [show ISIZE_MIN + ((m : Int) + 1) - 1 = ISIZE_MIN + m by ring]
        apply wrapIsize_eq_self <;> unfold ISIZE_MIN <;> push_cast at hm <;> omega
      rw [hw, ih hm1 (by push_cast at hm ⊢; omega)]
      simp

/-- Claim C2: `release_residual` decrements the residual by one and does
nothing further unless the pre-decrement value is exactly
`isize::MIN + 1`; in exactly that case it stores `0` and wakes the parked
writer. In a full synchronize round with `n` outstanding residual readers
of which `j` release before the writer parks (its
`fetch_add(isize::MIN)`), the pre-park releases issue no wake-up, and the
post-park releases issue exactly one (by the last reader). -/
theorem release_residual_spec (n j : Nat) (h1 : 1 ≤ n)
    (h2 : (n : Int) ≤ ISIZE_MAX) (h3 : j < n) :
    (∀ r : Int, r ≠ ISIZE_MIN + 1 →
        Core.release_residual r = (wrapIsize (r - 1), false))
    ∧ Core.release_residual (ISIZE_MIN + 1) = (0, true)
    ∧ Core.releaseLoop j (n : Int) = ((n : Int) - j, 0)
    ∧ Core.releaseLoop (n - j) (Core.parkResidual ((n : Int) - j)) = (0, 1) := by
  unfold ISIZE_MAX at h2
  refine ⟨?_, ?_, ?_, ?_⟩
  · intro r hr
    simp [Core.release_residual, if_pos hr]
  · simp [Core.release_residual]
  · exact releaseLoop_no_wake j (n : Int) (by omega) (by omega)
  · have hpark : Core.parkResidual ((n : Int) - j)
        = ISIZE_MIN + ((n - j : Nat) : Int) := by
      unfold Core.parkResidual
      have : (n : Int) - j + ISIZE_MIN = ISIZE_MIN + ((n - j : Nat) : Int) := by
        push_cast [Nat.cast_sub (Nat.le_of_lt h3)]
        ring
      rw [this]
      apply wrapIsize_eq_self <;> unfold ISIZE_MIN <;> push_cast <;> omega
    rw [hpark]
    exact releaseLoop_parked (n - j) (by omega) (by omega)

/-- Witness for claim C2 at `n = 2`, `j = 1`. -/
theorem release_residual_spec_witness :
    Core.releaseLoop 1 ((2 : Nat) : Int) = (((2 : Nat) : Int) - (1 : Nat), 0)
    ∧ Core.releaseLoop (2 - 1)
        (Core.parkResidual (((2 : Nat) : Int) - (1 : Nat))) = (0, 1) := by
  have h := release_residual_spec 2 1 (by norm_num)
    (by unfold ISIZE_MAX; norm_num) (by norm_num)
  exact ⟨h.2.2.1, h.2.2.2⟩

/-! ## Claim C1: the publish protocol -/

theorem wrapIsize_nonneg_imp {x : Int} (h0 : 0 ≤ x) (h1 : x < 2 ^ 64)
    (h2 : 0 ≤ wrapIsize x) : wrapIsize x = x := by
  unfold wrapIsize at h2 ⊢
  omega

theorem count_field_lt (rc : Nat) : rc &&& RefCount.COUNT_MASK < 2 ^ 62 := by
  rw [land_count_mask]
  exact Nat.mod_lt _ (by norm_num)

theorem publishLoop_some (rcs : List Nat) :
    ∀ (acc : Int) (rcs' : List Nat) (total : Int),
      (∀ rc ∈ rcs, rc < WORD) → 0 ≤ acc → acc < 2 ^ 63 →
      Core.publishLoop rcs acc = some (rcs', total) →
      rcs' = rcs.map (fun rc => (RefCount.swap_maps rc).2)
      ∧ total = acc
          + (rcs.map
              (fun rc => ((rc &&& RefCount.COUNT_MASK : Nat) : Int))).sum
      ∧ 0 ≤ total ∧ total < 2 ^ 63 := by
  induction rcs with
  | nil =>
    intro acc rcs' total _ ha0 ha1 h
    simp only [Core.publishLoop, Option.some.injEq, Prod.mk.injEq] at h
    obtain ⟨h1, h2⟩ := h
    subst h1; subst h2
    exact ⟨rfl, by simp, ha0, ha1⟩
  | cons rc rest ih =>
    intro acc rcs' total hrc ha0 ha1 h
    simp only [Core.publishLoop, RefCount.swap_maps] at h
    set cnt : Int := ((rc &&& RefCount.COUNT_MASK : Nat) : Int) with hcnt
    have hcnt0 : 0 ≤ cnt := by positivity
    have hcntlt : cnt < 2 ^ 62 := by
      rw [hcnt]
      exact_mod_cast count_field_lt rc
    by_cases hneg : wrapIsize (acc + cnt) < 0
    · rw [if_pos hneg] at h
      exact absurd h (by simp)
    · rw [if_neg hneg] at h
      push_neg at hneg
      have hacc : wrapIsize (acc + cnt) = acc + cnt :=
        wrapIsize_nonneg_imp (by omega) (by omega) hneg
      rw [hacc] at h
      rcases hrest : Core.publishLoop rest (acc + cnt) with _ | ⟨rest', total'⟩
      · rw [hrest] at h
        exact absurd h (by simp)
      · rw [hrest] at h
        simp only [Option.some.injEq, Prod.mk.injEq] at h
        obtain ⟨h1, h2⟩ := h
        subst h1; subst h2
        have hbound : acc + cnt < 2 ^ 63 := by
          rcases Int.lt_or_le (acc + cnt) (2 ^ 63) with hlt | hge
          · exact hlt
          · exfalso
            unfold wrapIsize at hacc
            omega
        have hih := ih (acc + cnt) rest' total'
          (fun x hx => hrc x (List.mem_cons_of_mem _ hx)) (by omega) hbound hrest
        refine ⟨?_, ?_, hih.2.2⟩
        · simp only [List.map_cons]
          rw [hih.1]
          simp [RefCount.swap_maps]
        · simp only [List.map_cons, List.sum_cons]
          rw [hih.2.1]
          ring

theorem publishLoop_none_iff (rcs : List Nat) :
    ∀ acc : Int,
      (Core.publishLoop rcs acc = none ↔
        ∃ k < rcs.length, Core.wrapSumCounts (rcs.take (k + 1)) acc < 0) := by
  induction rcs with
  | nil =>
    intro acc
    simp [Core.publishLoop]
  | cons rc rest ih =>
    intro acc
    simp only [Core.publishLoop, RefCount.swap_maps]
    set cnt : Int := ((rc &&& RefCount.COUNT_MASK : Nat) : Int) with hcnt
    by_cases hneg : wrapIsize (acc + cnt) < 0
    · rw [if_pos hneg]
      simp only [true_iff]
      refine ⟨0, by simp, ?_⟩
      simpa [Core.wrapSumCounts] using hneg
    · rw [if_neg hneg]
      push_neg at hneg
      have hstep : ∀ k, Core.wrapSumCounts ((rc :: rest).take (k + 1)) acc
          = Core.wrapSumCounts (rest.take k) (wrapIsize (acc + cnt)) := by
        intro k
        simp [Core.wrapSumCounts, List.take_cons, List.foldl_cons]
      constructor
      · intro h
        have hrest : Core.publishLoop rest (wrapIsize (acc + cnt)) = none := by
          rcases hr : Core.publishLoop rest (wrapIsize (acc + cnt))
              with _ | ⟨rest', total⟩
          · rfl
          · rw [hr] at h
            exact absurd h (by simp)
        rcases (ih (wrapIsize (acc + cnt))).mp hrest with ⟨k, hk, hneg2⟩
        refine ⟨k + 1, by simpa using Nat.succ_lt_succ hk, ?_⟩
        rcases Nat.eq_zero_or_pos k with rfl | _
        · rw [hstep 1]
          exact hneg2
        · rw [hstep (k + 1)]
          exact hneg2
      · rintro ⟨k, hk, hneg2⟩
        rcases k with _ | k
        · rw [hstep 0] at hneg2
          simp only [List.take_zero, Core.wrapSumCounts, List.foldl_nil] at hneg2
          omega
        · have hrest : Core.publishLoop rest (wrapIsize (acc + cnt)) = none := by
            apply (ih (wrapIsize (acc + cnt))).mpr
            refine ⟨k, by simpa using Nat.lt_of_succ_lt_succ hk, ?_⟩
            rw [hstep (k + 1)] at hneg2
            exact hneg2
          rw [hrest]
  
theorem forall2_map_self {α β : Type} (f : α → β) (P : α → β → Prop)
    (l : List α) (h : ∀ x ∈ l, P x (f x)) : List.Forall₂ P l (l.map f) := by
  induction l with
  | nil => simp
  | cons x xs ih =>
    simp only [List.map_cons, List.forall₂_cons]
    exact ⟨h x (List.mem_cons_self x xs), ih fun y hy => h y (List.mem_cons_of_mem _ hy)⟩

/-- Claim C1: with `residual = 0` as precondition, `Core::publish` flips
the writer side, toggles the side bit of every registered refcount while
leaving its count field unchanged, and adds the sum of the pre-toggle
count fields (`initial_residual`) to the residual counter; it aborts
(`none`) exactly when the wrapped signed running sum of the count fields
goes negative at some prefix of the slab. -/
theorem publish_spec (s : CoreState) (hres : s.residual = 0)
    (hrc : ∀ rc ∈ s.refcounts, rc < WORD) :
    (∀ s', Core.publish s = some s' →
      s'.writer_map = s.writer_map.other
      ∧ List.Forall₂ (fun rc rc' =>
            RefCount.to_map_index rc' = (RefCount.to_map_index rc).other
            ∧ rc' &&& RefCount.COUNT_MASK = rc &&& RefCount.COUNT_MASK)
          s.refcounts s'.refcounts
      ∧ s'.residual = s.residual
          + (s.refcounts.map
              (fun rc => ((rc &&& RefCount.COUNT_MASK : Nat) : Int))).sum)
    ∧ (Core.publish s = none ↔
        ∃ k < s.refcounts.length,
          Core.wrapSumCounts (s.refcounts.take (k + 1)) 0 < 0) := by
  constructor
  · intro s' hpub
    unfold Core.publish at hpub
    rcases hloop : Core.publishLoop s.refcounts 0 with _ | ⟨rcs', total⟩
    · rw [hloop] at hpub
      exact absurd hpub (by simp)
    · rw [hloop] at hpub
      simp only [Option.some.injEq] at hpub
      have hsome := publishLoop_some s.refcounts 0 rcs' total hrc
        (le_refl 0) (by norm_num) hloop
      subst hpub
      refine ⟨rfl, ?_, ?_⟩
      · simp only
        rw [hsome.1]
        apply forall2_map_self
        intro rc hrcm
        have hs := swap_maps_spec (hrc rc hrcm)
        exact ⟨hs.2.1, hs.2.2.1⟩
      · simp only
        rw [hres, Int.zero_add, wrapIsize_eq_self (by omega) hsome.2.2.2]
        have := hsome.2.1
        omega
  · unfold Core.publish
    rcases hloop : Core.publishLoop s.refcounts 0 with _ | ⟨rcs', total⟩
    · constructor
      · intro _
        exact (publishLoop_none_iff s.refcounts 0).mp hloop
      · intro _
        rfl
    · constructor
      · intro h
        exact absurd h (by simp)
      · intro hex
        have := (publishLoop_none_iff s.refcounts 0).mpr hex
        rw [hloop] at this
        exact absurd this (by simp)

/-- Witness for claim C1 on a two-reader slab with counts 5 and 3. -/
theorem publish_spec_witness :
    (∀ s', Core.publish
        { residual := 0, refcounts := [5, 2 ^ 63 + 3],
          writer_map := .Second } = some s' →
      s'.writer_map = MapIndex.Second.other
      ∧ List.Forall₂ (fun rc rc' =>
            RefCount.to_map_index rc' = (RefCount.to_map_index rc).other
            ∧ rc' &&& RefCount.COUNT_MASK = rc &&& RefCount.COUNT_MASK)
          [5, 2 ^ 63 + 3] s'.refcounts
      ∧ s'.residual = 0
          + (([5, 2 ^ 63 + 3] : List Nat).map
              (fun rc => ((rc &&& RefCount.COUNT_MASK : Nat) : Int))).sum)
    ∧ (Core.publish
        { residual := 0, refcounts := [5, 2 ^ 63 + 3],
          writer_map := .Second } = none ↔
        ∃ k < ([5, 2 ^ 63 + 3] : List Nat).length,
          Core.wrapSumCounts (([5, 2 ^ 63 + 3] : List Nat).take (k + 1)) 0 < 0) :=
  publish_spec
    { residual := 0, refcounts := [5, 2 ^ 63 + 3], writer_map := .Second }
    rfl (by decide)

/-! ## Claim C4: log replay convergence -/

theorem flush_operations_snoc {K P V : Type} [DecidableEq K]
    (l : List (Operation K P V)) (op : Operation K P V) :
    ∀ m : Buf K P V,
      flush_operations (l ++ [op]) m
        = match flush_operations l m with
          | none => none
          | some (_, m', dk1, dv1) =>
            match flushOp op m' with
            | none => none
            | some (m'', dk2, dv2) =>
              some ([], m'', dk1 ++ dk2, dv1 ++ dv2) := by
  induction l with
  | nil =>
    intro m
    simp only [List.nil_append, flush_operations]
    rcases flushOp op m with _ | ⟨m'', dk2, dv2⟩
    · rfl
    · simp [flush_operations]
  | cons op0 l ih =>
    intro m
    simp only [List.cons_append, flush_operations]
    rcases flushOp op0 m with _ | ⟨m1, dk0, dv0⟩
    · rfl
    · dsimp only
      simp only [List.append_eq]
      rw [ih m1]
      rcases flush_operations l m1 with _ | ⟨left, m', dk1, dv1⟩
      · rfl
      · dsimp only
        rcases flushOp op m' with _ | ⟨m'', dk2, dv2⟩
        · rfl
        · dsimp only
          simp [List.append_assoc]

theorem flush_invariant_step {K P V : Type} [DecidableEq K]
    (m0 : Buf K P V) (s : WriteState K P V) (mu : Mutation K P V)
    (h : ∃ dk dv, flush_operations s.operations m0 = some ([], s.buf, dk, dv)) :
    ∃ dk dv,
      flush_operations (applyMutation s mu).operations m0
        = some ([], (applyMutation s mu).buf, dk, dv) := by
  obtain ⟨dk, dv, h⟩ := h
  cases mu with
  | insert k p v =>
    rcases hk : s.buf k with _ | ⟨p₀, v₀⟩
    · refine ⟨dk, dv, ?_⟩
      simp [applyMutation, WriteGuard.insert, hk, flush_operations_snoc, h,
        flushOp, Operation.new]
    · refine ⟨dk, dv ++ [v₀], ?_⟩
      simp [applyMutation, WriteGuard.insert, hk, flush_operations_snoc, h,
        flushOp, Operation.new]
  | replace k p f =>
    rcases hk : s.buf k with _ | ⟨p₀, v₀⟩
    · refine ⟨dk, dv, ?_⟩
      simpa [applyMutation, WriteGuard.replace, hk] using h
    · refine ⟨dk, dv ++ [v₀], ?_⟩
      simp [applyMutation, WriteGuard.replace, hk, flush_operations_snoc, h,
        flushOp, Operation.new]
  | remove k p =>
    rcases hk : s.buf k with _ | ⟨p₀, v₀⟩
    · refine ⟨dk, dv, ?_⟩
      simpa [applyMutation, WriteGuard.remove, hk] using h
    · refine ⟨dk ++ [(k, p₀)], dv ++ [v₀], ?_⟩
      simp [applyMutation, WriteGuard.remove, hk, flush_operations_snoc, h,
        flushOp, Operation.new]
  | dropLazily v =>
    refine ⟨dk, dv ++ [v], ?_⟩
    simp [applyMutation, flush_operations_snoc, h, flushOp, Operation.new]

/-- Claim C4: replaying the operation log recorded by any sequence of
write-guard mutations, via `flush_operations`, on a buffer whose contents
equal the pre-guard snapshot, succeeds and yields exactly the buffer that
received the mutations directly (the two buffers converge, as the same
function `K → Option (P × V)`), and afterwards the operation log is empty
(the first component of the result is the drained log). -/
theorem flush_replay_converges {K P V : Type} [DecidableEq K]
    (m0 : Buf K P V) (muts : List (Mutation K P V)) :
    ∃ dk dv,
      flush_operations (applyMutations ⟨m0, []⟩ muts).operations m0
        = some ([], (applyMutations ⟨m0, []⟩ muts).buf, dk, dv) := by
  suffices h : ∀ s : WriteState K P V,
      (∃ dk dv, flush_operations s.operations m0 = some ([], s.buf, dk, dv)) →
      ∃ dk dv,
        flush_operations (applyMutations s muts).operations m0
          = some ([], (applyMutations s muts).buf, dk, dv) by
    exact h ⟨m0, []⟩ ⟨[], [], rfl⟩
  induction muts with
  | nil => intro s hs; exact hs
  | cons mu rest ih =>
    intro s hs
    simp only [applyMutations, List.foldl_cons]
    exact ih (applyMutation s mu) (flush_invariant_step m0 s mu hs)

/-! ## Claims C6, C7, C9: guard mutations -/

/-- Claim C6: `WriteGuard::insert` on an absent key stores the (aliased
copies of the) key and value in the writer buffer, appends an
`InsertUnique` entry (not leaky) to the operation log and returns `none`;
on a present key it overwrites only the value slot with (an aliased copy
of) the new value, appends a `Replace` entry, and returns the previously
stored value as the evicted one. -/
theorem insert_spec {K P V : Type} [DecidableEq K]
    (s : WriteState K P V) (k : K) (p : P) (v : V) :
    (s.buf k = none →
      WriteGuard.insert s k p v
        = ({ buf := s.buf.update k (some (p, v)),
             operations := s.operations
               ++ [Operation.new (.InsertUnique (k, p) v)] }, none))
    ∧ ∀ p₀ v₀, s.buf k = some (p₀, v₀) →
      WriteGuard.insert s k p v
        = ({ buf := s.buf.update k (some (p₀, v)),
             operations := s.operations
               ++ [Operation.new (.Replace (k, p) v)] }, some v₀) := by
  constructor
  · intro h
    simp [WriteGuard.insert, h]
  · intro p₀ v₀ h
    simp [WriteGuard.insert, h]

/-- Witness for claim C6 on concrete one-entry states. -/
theorem insert_spec_witness :
    (WriteGuard.insert (⟨fun _ => none, []⟩ : WriteState Nat Nat Nat) 1 2 3
      = ({ buf := Buf.update (fun _ => none) 1 (some (2, 3)),
           operations := [] ++ [Operation.new (.InsertUnique (1, 2) 3)] },
         none))
    ∧ (WriteGuard.insert
        (⟨Buf.update (fun _ => none) 1 (some (7, 10)), []⟩
          : WriteState Nat Nat Nat) 1 2 3
      = ({ buf := Buf.update (Buf.update (fun _ => none) 1 (some (7, 10)))
             1 (some (7, 3)),
           operations := [] ++ [Operation.new (.Replace (1, 2) 3)] },
         some 10)) :=
  ⟨(insert_spec ⟨fun _ => none, []⟩ 1 2 3).1 rfl,
   (insert_spec ⟨Buf.update (fun _ => none) 1 (some (7, 10)), []⟩ 1 2 3).2
     7 10 (by simp [Buf.update])⟩

/-- Claim C9: overwriting the value of a present key keeps the stored key
object: the direct `insert` on a present key changes only the value
component of the slot (the stored key payload `p₀` survives; the
caller-supplied payload `p` is used only for lookup) and leaves every
other key untouched; likewise the replay of the resulting `Replace` entry
looks up by the logged key but keeps the stored key payload, changing
only the value. -/
theorem insert_retains_key_spec {K P V : Type} [DecidableEq K] :
    (∀ (s : WriteState K P V) (k : K) (p p₀ : P) (v v₀ : V),
        s.buf k = some (p₀, v₀) →
        (WriteGuard.insert s k p v).1.buf k = some (p₀, v)
        ∧ ∀ k', k' ≠ k → (WriteGuard.insert s k p v).1.buf k' = s.buf k')
    ∧ ∀ (m : Buf K P V) (k : K) (p p₀ : P) (v v₀ : V) (leaky : Bool),
        m k = some (p₀, v₀) →
        flushOp ⟨.Replace (k, p) v, leaky⟩ m
          = some (m.update k (some (p₀, v)), [],
              if leaky then [] else [v₀]) := by
  constructor
  · intro s k p p₀ v v₀ h
    constructor
    · simp [WriteGuard.insert, h, Buf.update]
    · intro k' hk'
      simp [WriteGuard.insert, h, Buf.update, hk']
  · intro m k p p₀ v v₀ leaky h
    simp [flushOp, h]

/-- Witness for claim C9 on a concrete one-entry buffer. -/
theorem insert_retains_key_spec_witness :
    ((WriteGuard.insert
        (⟨Buf.update (fun _ => none) 1 (some (7, 10)), []⟩
          : WriteState Nat Nat Nat) 1 2 3).1.buf 1 = some (7, 3)
      ∧ ∀ k', k' ≠ 1 →
        (WriteGuard.insert
          (⟨Buf.update (fun _ => none) 1 (some (7, 10)), []⟩
            : WriteState Nat Nat Nat) 1 2 3).1.buf k'
          = Buf.update (fun _ => none) 1 (some (7, 10)) k')
    ∧ flushOp (⟨.Replace (1, 2) 3, false⟩ : Operation Nat Nat Nat)
        (Buf.update (fun _ => none) 1 (some (7, 10)))
      = some ((Buf.update (fun _ => none) 1 (some (7, 10))).update
          1 (some (7, 3)), [], if false then [] else [10]) :=
  ⟨insert_retains_key_spec.1 ⟨Buf.update (fun _ => none) 1 (some (7, 10)), []⟩
     1 2 7 3 10 (by simp [Buf.update]),
   insert_retains_key_spec.2 (Buf.update (fun _ => none) 1 (some (7, 10)))
     1 2 7 3 10 false (by simp [Buf.update])⟩

/-- Claim C7: `WriteGuard::remove` on an absent key returns `none` and
appends nothing to the operation log (state unchanged); and in the
sequence remove-publish-remove, the first remove (of a present key with
value `v₀`) evicts `v₀`, the replay of the recorded `Remove` entry on the
pre-guard snapshot drops the stored key object and the value exactly once
(drop lists `[(k, p₀)]` and `[v₀]`; the direct removal itself drops
nothing, aliased cells have no drop glue), and the second remove returns
`none` leaving buffer and log unchanged. -/
theorem remove_spec {K P V : Type} [DecidableEq K] (m : Buf K P V)
    (k : K) (p p' p₀ : P) (v₀ : V) (h : m k = some (p₀, v₀)) :
    (∀ (s : WriteState K P V) (k₁ : K) (p₁ : P),
        s.buf k₁ = none → WriteGuard.remove s k₁ p₁ = (s, none))
    ∧ (WriteGuard.remove ⟨m, []⟩ k p).2 = some v₀
    ∧ flush_operations (WriteGuard.remove ⟨m, []⟩ k p).1.operations m
        = some ([], m.update k none, [(k, p₀)], [v₀])
    ∧ WriteGuard.remove ⟨m.update k none, []⟩ k p'
        = (⟨m.update k none, []⟩, none) := by
  refine ⟨?_, ?_, ?_, ?_⟩
  · intro s k₁ p₁ h₁
    simp [WriteGuard.remove, h₁]
  · simp [WriteGuard.remove, h]
  · simp [WriteGuard.remove, h, flush_operations, flushOp, Operation.new]
  · have h2 : (m.update k none) k = none := by simp [Buf.update]
    simp [WriteGuard.remove, h2]

/-- Witness for claim C7 on a concrete one-entry buffer. -/
theorem remove_spec_witness :
    (∀ (s : WriteState Nat Nat Nat) (k₁ : Nat) (p₁ : Nat),
        s.buf k₁ = none → WriteGuard.remove s k₁ p₁ = (s, none))
    ∧ (WriteGuard.remove
        (⟨Buf.update (fun _ => none) 1 (some (7, 10)), []⟩
          : WriteState Nat Nat Nat) 1 2).2 = some 10
    ∧ flush_operations
        (WriteGuard.remove
          (⟨Buf.update (fun _ => none) 1 (some (7, 10)), []⟩
            : WriteState Nat Nat Nat) 1 2).1.operations
        (Buf.update (fun _ => none) 1 (some (7, 10)))
        = some ([], (Buf.update (fun _ => none) 1 (some (7, 10))).update 1 none,
            [(1, 7)], [10])
    ∧ WriteGuard.remove
        (⟨(Buf.update (fun _ => none) 1 (some (7, 10))).update 1 none, []⟩
          : WriteState Nat Nat Nat) 1 3
        = (⟨(Buf.update (fun _ => none) 1 (some (7, 10))).update 1 none, []⟩,
           none) :=
  remove_spec (Buf.update (fun _ => none) 1 (some (7, 10))) 1 2 3 7 10
    (by simp [Buf.update])

/-! ## Claim C8: cross-map misuse detection -/

/-- Claim C8: handing a `Leaked` value to a handle or guard with a
different writer uid panics with the constant mismatch message, before the
aliased cell is consumed (`reclaim_one` returns no value) or recorded
(`drop_lazily` appends nothing); with matching uids `reclaim_one` returns
the owned value. -/
theorem leaked_uid_spec {V : Type} (uid : Nat) (leaked : Leaked V) :
    (uid ≠ leaked.handle_uid →
      reclaim_one uid leaked = .error LEAKED_VALUE_MISMATCH
      ∧ ∀ (K P : Type) (operations : List (Operation K P V)),
          drop_lazily uid leaked operations = .error LEAKED_VALUE_MISMATCH)
    ∧ (uid = leaked.handle_uid →
      reclaim_one uid leaked = .ok leaked.value
      ∧ ∀ (K P : Type) (operations : List (Operation K P V)),
          drop_lazily uid leaked operations
            = .ok (operations ++ [Operation.new (.Drop leaked.value)])) := by
  constructor
  · intro h
    exact ⟨by simp [reclaim_one, h], fun K P ops => by simp [drop_lazily, h]⟩
  · intro h
    exact ⟨by simp [reclaim_one, h], fun K P ops => by simp [drop_lazily, h]⟩

/-- Witness for claim C8 at concrete uids `1 ≠ 2` and `2 = 2`. -/
theorem leaked_uid_spec_witness :
    (reclaim_one 1 (⟨42, 2⟩ : Leaked Nat) = .error LEAKED_VALUE_MISMATCH
      ∧ drop_lazily 1 (⟨42, 2⟩ : Leaked Nat)
          ([] : List (Operation Nat Nat Nat)) = .error LEAKED_VALUE_MISMATCH)
    ∧ reclaim_one 2 (⟨42, 2⟩ : Leaked Nat) = .ok 42 :=
  ⟨⟨((leaked_uid_spec 1 ⟨42, 2⟩).1 (by decide)).1,
    ((leaked_uid_spec 1 ⟨42, 2⟩).1 (by decide)).2 Nat Nat []⟩,
   ((leaked_uid_spec 2 ⟨42, 2⟩).2 rfl).1⟩

/-! ## Claim C10: writer uids -/

theorem writer_uid_draw_ok (n : Nat) :
    ∀ c : Nat, 1 ≤ c → c + n ≤ 2 ^ 64 →
      ∃ cf, WriterUid.draw n c = .ok (List.range' c n, cf) := by
  induction n with
  | zero => intro c _ _; exact ⟨c, rfl⟩
  | succ n ih =>
    intro c hc hcn
    rcases Nat.lt_or_ge (c + 1) (2 ^ 64) with hlt | hge
    · have hmod : (c + 1) % WORD = c + 1 := by
        apply Nat.mod_eq_of_lt
        have : WORD = 2 ^ 64 := by decide
        omega
      obtain ⟨cf, hrec⟩ := ih (c + 1) (by omega) (by omega)
      refine ⟨cf, ?_⟩
      rw [WriterUid.draw, WriterUid.next]
      rw [if_neg (by omega)]
      dsimp only
      rw [hmod, hrec]
      rw [List.range'_succ]
    · have hn0 : n = 0 := by omega
      subst hn0
      have hc1 : c + 1 = 2 ^ 64 := by omega
      have hmod : (c + 1) % WORD = 0 := by
        have hW : WORD = 2 ^ 64 := by decide
        rw [hW, hc1]
        exact Nat.mod_self _
      refine ⟨0, ?_⟩
      rw [WriterUid.draw, WriterUid.next]
      rw [if_neg (by omega)]
      dsimp only
      rw [hmod]
      rw [List.range'_succ]
      rfl

/-- Claim C10: writer uids come from a process-wide counter that starts
at `1` and is bumped by a (relaxed, wrapping) fetch-add of `1`;
`WriterUid::next` panics with the message about exceeding the maximum
number of maps exactly when the counter has wrapped to zero; and any
sequence of handles created before wrap-around receives pairwise distinct
non-zero uids. -/
theorem writer_uid_spec (n : Nat) (hn : n ≤ 2 ^ 64 - 1) :
    NEXT_WRITER_UID_INIT = 1
    ∧ WriterUid.next 0
        = .error "Maximum number of maps exceeded for this architecture"
    ∧ ∃ uids final,
        WriterUid.draw n NEXT_WRITER_UID_INIT = .ok (uids, final)
        ∧ uids.length = n
        ∧ (∀ u ∈ uids, u ≠ 0)
        ∧ uids.Nodup := by
  refine ⟨rfl, rfl, ?_⟩
  obtain ⟨cf, h⟩ := writer_uid_draw_ok n 1 (le_refl 1) (by omega)
  refine ⟨List.range' 1 n, cf, h, by simp, ?_, ?_⟩
  · intro u hu
    have := List.mem_range'_1.mp hu
    omega
  · exact List.nodup_range' _ _

/-- Witness for claim C10 at `n = 3`. -/
theorem writer_uid_spec_witness :
    NEXT_WRITER_UID_INIT = 1
    ∧ WriterUid.next 0
        = .error "Maximum number of maps exceeded for this architecture"
    ∧ ∃ uids final,
        WriterUid.draw 3 NEXT_WRITER_UID_INIT = .ok (uids, final)
        ∧ uids.length = 3
        ∧ (∀ u ∈ uids, u ≠ 0)
        ∧ uids.Nodup :=
  writer_uid_spec 3 (by norm_num)

end Flashmap
